import Mathlib

/-!
Shallow embedding of the drawing-canvas subsystem of `music-from-drawings-pro`
(the `AdvancedDrawingCanvas` React component).  Coordinates and widths are
modelled as exact rationals; the 2D context and the raster surface are
modelled at the level of the draw operations they receive, exploiting the
fact that every render pass begins with a full-canvas opaque fill (which
makes the pixel content a function of the fill color and the path operations
issued after it).
-/

/-- A point in canvas pixel space (source: `interface Point`). -/
@[ext]
structure Point where
  x : ℚ
  y : ℚ
deriving DecidableEq, Repr

/-- The four drawing tools (source union type `'pen' | 'brush' | 'marker' | 'eraser'`). -/
inductive Tool where
  | pen
  | brush
  | marker
  | eraser
deriving DecidableEq, Repr

/-- A stroke: ordered points plus the style captured at stroke start
(source: `interface Stroke`). -/
@[ext]
structure Stroke where
  points : List Point
  color : String
  width : ℚ
  tool : Tool
deriving DecidableEq, Repr

/-- The background/clear color used by the component (`'#FFFFFF'` literals at
the fill in `redrawCanvas`, in `clearCanvas`, and as the eraser's captured
color in `startDrawing`). -/
def backgroundColor : String := "#FFFFFF"

/-- The React component state relevant to the canvas session:
`isDrawing`, `currentStroke`, `strokes`, and the tool configuration
(`currentColor`, `currentWidth`, `currentTool`), plus the derived
`hasContent` flag. -/
@[ext]
structure CanvasState where
  isDrawing : Bool
  currentStroke : Option Stroke
  strokes : List Stroke
  currentColor : String
  currentWidth : ℚ
  currentTool : Tool
  hasContent : Bool
deriving DecidableEq, Repr

/-- The `useState` initial values of the component. -/
def initialState : CanvasState :=
  { isDrawing := false
    currentStroke := none
    strokes := []
    currentColor := "#000000"
    currentWidth := 5
    currentTool := .pen
    hasContent := false }

/-- The element's bounding client rectangle (`getBoundingClientRect`). -/
@[ext]
structure Rect where
  left : ℚ
  top : ℚ
  width : ℚ
  height : ℚ
deriving DecidableEq, Repr

/-- The mounted canvas element: backing pixel size plus displayed rectangle. -/
@[ext]
structure CanvasEl where
  width : ℚ
  height : ℚ
  rect : Rect
deriving DecidableEq, Repr

/-- One touch point of a touch event. -/
@[ext]
structure Touch where
  clientX : ℚ
  clientY : ℚ
deriving DecidableEq, Repr

/-- Source `getMousePos` (lines 38-50): maps a client coordinate into backing
pixel space; returns the origin when the canvas ref is not mounted. -/
def getMousePos (canvas : Option CanvasEl) (clientX clientY : ℚ) : Point :=
  match canvas with
  | none => { x := 0, y := 0 }
  | some c =>
    let scaleX := c.width / c.rect.width
    let scaleY := c.height / c.rect.height
    { x := (clientX - c.rect.left) * scaleX
      y := (clientY - c.rect.top) * scaleY }

/-- The JavaScript error raised by reading a property of `undefined`
(what `e.touches[0].clientX` does when the touch list is empty). -/
def touchUndefinedError : String := "TypeError: cannot read clientX of undefined"

/-- Source `getTouchPos` (lines 52-65): same mapping, reading the first entry
of `e.touches`.  The source indexes `e.touches[0]` without a guard, so an
empty touch list makes the subsequent `.clientX` access fail; fallible code
is modelled with `Except`. -/
def getTouchPos (canvas : Option CanvasEl) (touches : List Touch) :
    Except String Point :=
  match canvas with
  | none => .ok { x := 0, y := 0 }
  | some c =>
    let scaleX := c.width / c.rect.width
    let scaleY := c.height / c.rect.height
    match touches with
    | [] => .error touchUndefinedError
    | touch :: _ =>
      .ok { x := (touch.clientX - c.rect.left) * scaleX
            y := (touch.clientY - c.rect.top) * scaleY }

/-- Source `startDrawing` (lines 67-76): unconditionally begins a new stroke,
capturing the configuration; the eraser forces the background color and
doubles the width. -/
def startDrawing (point : Point) (s : CanvasState) : CanvasState :=
  let newStroke : Stroke :=
    { points := [point]
      color := if s.currentTool = .eraser then backgroundColor else s.currentColor
      width := if s.currentTool = .eraser then s.currentWidth * 2 else s.currentWidth
      tool := s.currentTool }
  { s with isDrawing := true, currentStroke := some newStroke }

/-- Source `draw` (lines 78-86): appends a point to the active stroke;
no-op unless `isDrawing` with a current stroke. -/
def draw (point : Point) (s : CanvasState) : CanvasState :=
  match s.currentStroke with
  | none => s
  | some cur =>
    if s.isDrawing then
      { s with currentStroke := some { cur with points := cur.points ++ [point] } }
    else s

/-- Source `stopDrawing` (lines 88-99): moves the active stroke into the log
and emits the content-presence flag on `onDrawingChange`.  The flag is
computed from the closure's `strokes` — the log *before* the append — which
is the stale read the spec's design notes call out.  The second component is
the emitted value (`none` when the guard returns early and nothing is
emitted). -/
def stopDrawing (s : CanvasState) : CanvasState × Option Bool :=
  match s.currentStroke with
  | none => (s, none)
  | some cur =>
    if s.isDrawing then
      let hasDrawnContent := decide (0 < s.strokes.length) || decide (1 < cur.points.length)
      ({ s with strokes := s.strokes ++ [cur]
                currentStroke := none
                isDrawing := false
                hasContent := hasDrawnContent },
       some hasDrawnContent)
    else (s, none)

/-- Source `undoLastStroke` (lines 201-208): drops the most recent log entry
when the log is non-empty and emits `strokes.length > 1` (the pre-undo
length); no-op, with no emission, on an empty log. -/
def undoLastStroke (s : CanvasState) : CanvasState × Option Bool :=
  if 0 < s.strokes.length then
    let newHasContent := decide (1 < s.strokes.length)
    ({ s with strokes := s.strokes.dropLast, hasContent := newHasContent },
     some newHasContent)
  else (s, none)

/-- `globalCompositeOperation` values used by the component. -/
inductive CompositeOp where
  | sourceOver
  | destinationOut
deriving DecidableEq, Repr

/-- `lineCap` values (browser default is `butt`; the component sets `round`). -/
inductive CapStyle where
  | butt
  | round
deriving DecidableEq, Repr

/-- `lineJoin` values (browser default is `miter`; the component sets `round`). -/
inductive JoinStyle where
  | miter
  | round
deriving DecidableEq, Repr

/-- The mutable style state of the 2D rendering context that the component
reads or writes. -/
@[ext]
structure Ctx where
  fillStyle : String
  strokeStyle : String
  lineWidth : ℚ
  globalAlpha : ℚ
  comp : CompositeOp
  lineCap : CapStyle
  lineJoin : JoinStyle
deriving DecidableEq, Repr

/-- The browser's initial 2D-context style state. -/
def defaultCtx : Ctx :=
  { fillStyle := "#000000"
    strokeStyle := "#000000"
    lineWidth := 1
    globalAlpha := 1
    comp := .sourceOver
    lineCap := .butt
    lineJoin := .miter }

/-- One stroked path together with the context style it was stroked under:
everything that determines its pixel contribution. -/
@[ext]
structure DrawOp where
  points : List Point
  strokeStyle : String
  lineWidth : ℚ
  alpha : ℚ
  comp : CompositeOp
  cap : CapStyle
  join : JoinStyle
deriving DecidableEq, Repr

/-- The raster surface, abstracted as the color of the last full-canvas
opaque fill plus the stroked paths issued since: these data determine every
pixel, because an opaque full-canvas `fillRect` overwrites all prior
content. -/
@[ext]
structure Surface where
  background : String
  ops : List DrawOp
deriving DecidableEq, Repr

/-- Full-canvas opaque fill (`ctx.fillRect(0, 0, canvas.width, canvas.height)`
with an opaque `fillStyle`): discards all prior pixel content. -/
def fillAll (color : String) (_prior : Surface) : Surface :=
  { background := color, ops := [] }

/-- `ctx.stroke()`: adds one stroked path to the surface. -/
def strokePath (surf : Surface) (op : DrawOp) : Surface :=
  { surf with ops := surf.ops ++ [op] }

/-- The PNG data-URI snapshot (`canvas.toDataURL('image/png')`), abstracted
as a faithful encoding of the surface pixels. -/
@[ext]
structure DataURL where
  surface : Surface
deriving DecidableEq, Repr

/-- Encode the surface (`canvas.toDataURL`). -/
def toDataURL (surf : Surface) : DataURL := ⟨surf⟩

/-- The per-stroke body of the `strokes.forEach` loop in `redrawCanvas`
(lines 113-145): skip strokes of fewer than 2 points; otherwise set the
style, apply the tool-specific modifiers (this branch has an `else` arm that
resets alpha and the composite operation), stroke the path through all
points, then reset the composite operation and alpha. -/
def drawLogStroke (acc : Ctx × Surface) (stroke : Stroke) : Ctx × Surface :=
  if stroke.points.length < 2 then acc
  else
    let c0 := { acc.1 with strokeStyle := stroke.color
                           lineWidth := stroke.width
                           lineCap := CapStyle.round
                           lineJoin := JoinStyle.round }
    let c1 :=
      match stroke.tool with
      | .brush => { c0 with globalAlpha := 7/10, lineWidth := stroke.width * (3/2) }
      | .marker => { c0 with globalAlpha := 1/2, lineWidth := stroke.width * 2 }
      | .eraser => { c0 with comp := .destinationOut }
      | .pen => { c0 with globalAlpha := 1, comp := .sourceOver }
    let surf := strokePath acc.2
      { points := stroke.points
        strokeStyle := c1.strokeStyle
        lineWidth := c1.lineWidth
        alpha := c1.globalAlpha
        comp := c1.comp
        cap := c1.lineCap
        join := c1.lineJoin }
    ({ c1 with comp := .sourceOver, globalAlpha := 1 }, surf)

/-- The current-stroke block of `redrawCanvas` (lines 148-173): drawn only
when the stroke has more than one point; the tool branch here has *no*
`else` arm (the pen leaves the context style untouched). -/
def drawActiveStroke (acc : Ctx × Surface) (stroke : Stroke) : Ctx × Surface :=
  if 1 < stroke.points.length then
    let c0 := { acc.1 with strokeStyle := stroke.color
                           lineWidth := stroke.width
                           lineCap := CapStyle.round
                           lineJoin := JoinStyle.round }
    let c1 :=
      match stroke.tool with
      | .brush => { c0 with globalAlpha := 7/10, lineWidth := stroke.width * (3/2) }
      | .marker => { c0 with globalAlpha := 1/2, lineWidth := stroke.width * 2 }
      | .eraser => { c0 with comp := .destinationOut }
      | .pen => c0
    let surf := strokePath acc.2
      { points := stroke.points
        strokeStyle := c1.strokeStyle
        lineWidth := c1.lineWidth
        alpha := c1.globalAlpha
        comp := c1.comp
        cap := c1.lineCap
        join := c1.lineJoin }
    ({ c1 with comp := .sourceOver, globalAlpha := 1 }, surf)
  else acc

/-- What one render pass produces: the context style state it leaves behind,
the redrawn surface, and the encoded snapshot delivered on `onImageData`. -/
@[ext]
structure RenderResult where
  ctx : Ctx
  surface : Surface
  image : DataURL
deriving DecidableEq, Repr

/-- Source `redrawCanvas` (lines 101-178), for a mounted canvas: fill the
whole surface with the background color, draw every logged stroke in order,
draw the current stroke (if any) last, then encode and emit the snapshot. -/
def redrawCanvas (c : Ctx) (prior : Surface) (strokes : List Stroke)
    (currentStroke : Option Stroke) : RenderResult :=
  let c0 := { c with fillStyle := backgroundColor }
  let surf0 := fillAll c0.fillStyle prior
  let acc1 := strokes.foldl drawLogStroke (c0, surf0)
  let acc2 :=
    match currentStroke with
    | some cur => drawActiveStroke acc1 cur
    | none => acc1
  { ctx := acc2.1, surface := acc2.2, image := toDataURL acc2.2 }

/-- Source `clearCanvas` (lines 184-199): reset the session state, emit
content-presence `false`, and (when the canvas is mounted) repaint the
background and emit the blank snapshot. -/
def clearCanvas (canvas : Option Surface) (s : CanvasState) :
    CanvasState × Bool × Option DataURL :=
  let cleared := { s with strokes := [], currentStroke := none, hasContent := false }
  match canvas with
  | none => (cleared, false, none)
  | some surf => (cleared, false, some (toDataURL (fillAll backgroundColor surf)))

/-- `handleTouchStart` (lines 229-233): map the touch position, then start a
stroke; failure of the mapper propagates. -/
def handleTouchStart (canvas : Option CanvasEl) (touches : List Touch)
    (s : CanvasState) : Except String CanvasState :=
  match getTouchPos canvas touches with
  | .error e => .error e
  | .ok p => .ok (startDrawing p s)

/-- `handleTouchMove` (lines 235-239): map the touch position, then append it
to the active stroke; failure of the mapper propagates. -/
def handleTouchMove (canvas : Option CanvasEl) (touches : List Touch)
    (s : CanvasState) : Except String CanvasState :=
  match getTouchPos canvas touches with
  | .error e => .error e
  | .ok p => .ok (draw p s)

/-- The session-level input events (already in canvas pixel space) and the
two exposed commands. -/
inductive Event where
  | pointerDown (p : Point)
  | pointerMove (p : Point)
  | pointerUp
  | undoCmd
  | clearCmd
deriving DecidableEq, Repr

/-- One event-handler invocation, state part only. -/
def stepEvent (s : CanvasState) (e : Event) : CanvasState :=
  match e with
  | .pointerDown p => startDrawing p s
  | .pointerMove p => draw p s
  | .pointerUp => (stopDrawing s).1
  | .undoCmd => (undoLastStroke s).1
  | .clearCmd => (clearCanvas none s).1

/-- Run a sequence of events. -/
def runEvents (s : CanvasState) (es : List Event) : CanvasState :=
  es.foldl stepEvent s

/-- The event sequence of drawing one full stroke: press at `p0`, move
through `ps`, release. -/
def strokeEvents (p0 : Point) (ps : List Point) : List Event :=
  Event.pointerDown p0 :: (ps.map Event.pointerMove ++ [Event.pointerUp])

/-- A blank surface as freshly initialized (background-filled, no strokes). -/
def blankSurface : Surface := { background := backgroundColor, ops := [] }

/-- The snapshot the component exports for a given session state: the effect
of the `useEffect`-triggered `redrawCanvas` after the state settles. -/
def exportImage (s : CanvasState) : DataURL :=
  (redrawCanvas defaultCtx blankSurface s.strokes s.currentStroke).image

/-- The stroke that a press at `p0` followed by moves through `ps` leaves in
the log: the configuration captured at `startDrawing` plus the accumulated
points. -/
def capturedStroke (s : CanvasState) (p0 : Point) (ps : List Point) : Stroke :=
  { points := p0 :: ps
    color := if s.currentTool = .eraser then backgroundColor else s.currentColor
    width := if s.currentTool = .eraser then s.currentWidth * 2 else s.currentWidth
    tool := s.currentTool }

/-- `n` successive invocations of `undoLastStroke` (state part). -/
def undoIter (n : Nat) (s : CanvasState) : CanvasState :=
  match n with
  | 0 => s
  | m + 1 => undoIter m (undoLastStroke s).1

/-- The context-style entry invariant of a render pass: alpha opaque and
normal compositing.  It holds of the browser's initial context and is
restored by every path through `redrawCanvas`. -/
def ctxReady (c : Ctx) : Prop := c.globalAlpha = 1 ∧ c.comp = .sourceOver

instance (c : Ctx) : Decidable (ctxReady c) := by
  unfold ctxReady
  infer_instance

/-- The draw operation a stroke contributes under the entry invariant:
stroke style from the stroke's captured color, tool-modified width and
alpha, erase-vs-paint compositing, round caps and joins. -/
def canonicalOp (stroke : Stroke) : DrawOp :=
  { points := stroke.points
    strokeStyle := stroke.color
    lineWidth :=
      match stroke.tool with
      | .brush => stroke.width * (3/2)
      | .marker => stroke.width * 2
      | _ => stroke.width
    alpha :=
      match stroke.tool with
      | .brush => 7/10
      | .marker => 1/2
      | _ => 1
    comp :=
      match stroke.tool with
      | .eraser => .destinationOut
      | _ => .sourceOver
    cap := .round
    join := .round }

/-- The draw operations contributed by the stroke log: one per stroke of at
least two points, in log order. -/
def logOps (strokes : List Stroke) : List DrawOp :=
  strokes.filterMap fun st =>
    if st.points.length < 2 then none else some (canonicalOp st)

/-- The draw operations contributed by the active stroke. -/
def activeOps (currentStroke : Option Stroke) : List DrawOp :=
  match currentStroke with
  | none => []
  | some st => if 1 < st.points.length then [canonicalOp st] else []

/-- One log-stroke step: under the entry invariant it appends exactly the
stroke's canonical operation (nothing for a degenerate stroke), keeps the
background, and restores the invariant. -/
lemma drawLogStroke_ops (c : Ctx) (surf : Surface) (st : Stroke)
    (h : ctxReady c) :
    ctxReady (drawLogStroke (c, surf) st).1
    ∧ (drawLogStroke (c, surf) st).2.background = surf.background
    ∧ (drawLogStroke (c, surf) st).2.ops =
        surf.ops ++ (if st.points.length < 2 then [] else [canonicalOp st]) := by
  obtain ⟨h1, h2⟩ := h
  obtain ⟨pts, col, w, tool⟩ := st
  unfold drawLogStroke
  split
  · simp [ctxReady, h1, h2]
  · cases tool <;>
      simp [ctxReady, strokePath, canonicalOp, h1, h2]

/-- The active-stroke step: same contribution as a log stroke under the
entry invariant, even though the source's active-stroke branch lacks the
`else` arm that the log branch has. -/
lemma drawActiveStroke_ops (c : Ctx) (surf : Surface) (st : Stroke)
    (h : ctxReady c) :
    ctxReady (drawActiveStroke (c, surf) st).1
    ∧ (drawActiveStroke (c, surf) st).2.background = surf.background
    ∧ (drawActiveStroke (c, surf) st).2.ops =
        surf.ops ++ (if 1 < st.points.length then [canonicalOp st] else []) := by
  obtain ⟨h1, h2⟩ := h
  obtain ⟨pts, col, w, tool⟩ := st
  unfold drawActiveStroke
  split
  · cases tool <;>
      simp [ctxReady, strokePath, canonicalOp, h1, h2]
  · simp [ctxReady, h1, h2]

/-- Folding the log-stroke step over the whole log appends `logOps`. -/
lemma foldl_drawLogStroke_ops (strokes : List Stroke) :
    ∀ (c : Ctx) (surf : Surface), ctxReady c →
      ctxReady (strokes.foldl drawLogStroke (c, surf)).1
      ∧ (strokes.foldl drawLogStroke (c, surf)).2.background = surf.background
      ∧ (strokes.foldl drawLogStroke (c, surf)).2.ops = surf.ops ++ logOps strokes := by
  induction strokes with
  | nil =>
    intro c surf h
    simpa [logOps] using h
  | cons st rest ih =>
    intro c surf h
    obtain ⟨hr, hb, ho⟩ := drawLogStroke_ops c surf st h
    rcases hpair : drawLogStroke (c, surf) st with ⟨c1, s1⟩
    rw [hpair] at hr hb ho
    obtain ⟨ihr, ihb, iho⟩ := ih c1 s1 hr
    refine ⟨by simpa [hpair] using ihr, ?_, ?_⟩
    · simpa [hpair, ihb] using hb
    · rw [List.foldl_cons, hpair, iho, ho, List.append_assoc]
      congr 1
      simp only [logOps, List.filterMap_cons]
      split <;> simp

/-- A full render pass, entered under the context invariant, produces the
background-filled surface carrying exactly the log's operations in log order
followed by the active stroke's operation, independent of the prior surface
content; the snapshot encodes that surface, and the invariant is restored. -/
lemma redrawCanvas_eq (c : Ctx) (prior : Surface) (strokes : List Stroke)
    (currentStroke : Option Stroke) (h : ctxReady c) :
    (redrawCanvas c prior strokes currentStroke).surface =
      { background := backgroundColor, ops := logOps strokes ++ activeOps currentStroke }
    ∧ (redrawCanvas c prior strokes currentStroke).image =
        toDataURL { background := backgroundColor
                    ops := logOps strokes ++ activeOps currentStroke }
    ∧ ctxReady (redrawCanvas c prior strokes currentStroke).ctx := by
  have hc0 : ctxReady { c with fillStyle := backgroundColor } := h
  obtain ⟨fr, fb, fo⟩ :=
    foldl_drawLogStroke_ops strokes { c with fillStyle := backgroundColor }
      (fillAll backgroundColor prior) hc0
  rcases hfold : strokes.foldl drawLogStroke
      ({ c with fillStyle := backgroundColor }, fillAll backgroundColor prior)
    with ⟨c1, s1⟩
  rw [hfold] at fr fb fo
  simp only [fillAll, List.nil_append] at fb fo
  cases currentStroke with
  | none =>
    have hsurf : s1 = { background := backgroundColor
                        ops := logOps strokes ++ activeOps none } := by
      ext1
      · simpa using fb
      · simpa [activeOps] using fo
    refine ⟨?_, ?_, ?_⟩
    · simp [redrawCanvas, hfold, hsurf]
    · simp [redrawCanvas, hfold, toDataURL, hsurf]
    · simpa [redrawCanvas, hfold] using fr
  | some cur =>
    obtain ⟨ar, ab, ao⟩ := drawActiveStroke_ops c1 s1 cur fr
    rcases hact : drawActiveStroke (c1, s1) cur with ⟨c2, s2⟩
    rw [hact] at ar ab ao
    have hsurf : s2 = { background := backgroundColor
                        ops := logOps strokes ++ activeOps (some cur) } := by
      ext1
      · rw [ab, fb]
      · rw [ao, fo]
        simp [activeOps]
    refine ⟨?_, ?_, ?_⟩
    · simp [redrawCanvas, hfold, hact, hsurf]
    · simp [redrawCanvas, hfold, hact, toDataURL, hsurf]
    · simpa [redrawCanvas, hfold, hact] using ar

/-- Running a sequence of move events while drawing appends exactly the moved
points, in order, to the active stroke, and changes nothing else. -/
lemma runEvents_moves (ps : List Point) :
    ∀ (s : CanvasState) (cur : Stroke), s.isDrawing = true →
      s.currentStroke = some cur →
      runEvents s (ps.map Event.pointerMove) =
        { s with currentStroke := some { cur with points := cur.points ++ ps } } := by
  induction ps with
  | nil =>
    intro s cur h1 h2
    simp only [runEvents, List.map_nil, List.foldl_nil, List.append_nil]
    ext1 <;> simp [h2]
  | cons p ps ih =>
    intro s cur h1 h2
    simp only [runEvents, List.map_cons, List.foldl_cons]
    have hstep : stepEvent s (Event.pointerMove p) =
        { s with currentStroke := some { cur with points := cur.points ++ [p] } } := by
      simp [stepEvent, draw, h1, h2]
    rw [hstep]
    simp only [runEvents] at ih
    rw [ih _ { cur with points := cur.points ++ [p] } (by simp [h1]) (by simp)]
    simp

/-- Running one full stroke's events from any state completes exactly the
captured stroke: it is appended to the log, the active stroke is cleared,
and the emitted flag is stored. -/
lemma runEvents_strokeEvents (s : CanvasState) (p0 : Point) (ps : List Point) :
    runEvents s (strokeEvents p0 ps) =
      { s with isDrawing := false
               currentStroke := none
               strokes := s.strokes ++ [capturedStroke s p0 ps]
               hasContent := decide (0 < s.strokes.length) || decide (0 < ps.length) } := by
  simp only [strokeEvents, runEvents, List.foldl_cons, List.foldl_append]
  have hstart : stepEvent s (Event.pointerDown p0) = startDrawing p0 s := rfl
  rw [hstart]
  have hmid := runEvents_moves ps (startDrawing p0 s) (capturedStroke s p0 [])
    (by simp [startDrawing]) (by simp [startDrawing, capturedStroke])
  simp only [runEvents] at hmid
  rw [hmid]
  simp only [stepEvent, stopDrawing, startDrawing, capturedStroke]
  simp only [List.foldl_nil]
  have hlen : decide (1 < (p0 :: ps).length) = decide (0 < ps.length) := by
    simp [List.length_cons]
  ext1 <;> simp [hlen]

/-- A stroke used as a concrete active stroke in witnesses. -/
def sampleActiveStroke : Stroke :=
  { points := [{ x := 1, y := 2 }, { x := 3, y := 4 }]
    color := "#123456"
    width := 3
    tool := .brush }

/-- A session state that is mid-stroke. -/
def sampleDrawingState : CanvasState :=
  { initialState with isDrawing := true, currentStroke := some sampleActiveStroke }

/-- A one-point (degenerate) stroke. -/
def dotStroke : Stroke :=
  { points := [{ x := 2, y := 2 }]
    color := "#000000"
    width := 5
    tool := .pen }

/-- A two-point pen stroke. -/
def samplePenStroke : Stroke :=
  { points := [{ x := 0, y := 0 }, { x := 9, y := 9 }]
    color := "#FF0000"
    width := 5
    tool := .pen }

/-- A concrete mounted canvas element. -/
def sampleCanvasEl : CanvasEl :=
  { width := 800
    height := 600
    rect := { left := 0, top := 0, width := 800, height := 600 } }

/-- Claim C8: the geometry mapper is the pure function
`((clientX - elementLeft) * backingWidth / displayedWidth,
(clientY - elementTop) * backingHeight / displayedHeight)`, for the mouse
mapper and for the touch mapper on a present first touch, and both return
the origin instead of failing when the canvas element is not mounted. -/
theorem geometry_mapper_formula (el : CanvasEl) (clientX clientY : ℚ)
    (t : Touch) (rest : List Touch) :
    getMousePos (some el) clientX clientY =
      { x := (clientX - el.rect.left) * (el.width / el.rect.width)
        y := (clientY - el.rect.top) * (el.height / el.rect.height) }
    ∧ getMousePos none clientX clientY = { x := 0, y := 0 }
    ∧ getTouchPos (some el) (t :: rest) =
        .ok { x := (t.clientX - el.rect.left) * (el.width / el.rect.width)
              y := (t.clientY - el.rect.top) * (el.height / el.rect.height) }
    ∧ getTouchPos none (t :: rest) = .ok { x := 0, y := 0 } :=
  ⟨rfl, rfl, rfl, rfl⟩

/-- Claim C5: `clearCanvas` empties the stroke log, discards any active
stroke, emits content-presence `false`, and emits exactly the snapshot a
render of a freshly initialized session (empty log, no active stroke, new
blank surface) produces — regardless of the prior session state and prior
surface content. -/
theorem clear_resets_session (s : CanvasState) (surf : Surface) :
    (clearCanvas (some surf) s).1 =
      { s with strokes := [], currentStroke := none, hasContent := false }
    ∧ (clearCanvas (some surf) s).2.1 = false
    ∧ (clearCanvas (some surf) s).2.2 =
        some (redrawCanvas defaultCtx blankSurface initialState.strokes
                initialState.currentStroke).image :=
  ⟨rfl, rfl, rfl⟩

/-- Claim C10: an input-start while a stroke is already active silently
replaces the active stroke with a fresh one-point stroke capturing the
current configuration; the discarded stroke does not enter the log (the log
is unchanged), and the handler is total. -/
theorem input_start_replaces_active (s : CanvasState) (st0 : Stroke) (p : Point)
    (h : s.currentStroke = some st0) :
    stepEvent s (Event.pointerDown p) = startDrawing p s
    ∧ (startDrawing p s).currentStroke = some (capturedStroke s p [])
    ∧ (capturedStroke s p []).points = [p]
    ∧ (startDrawing p s).strokes = s.strokes
    ∧ (startDrawing p s).strokes.count st0 = s.strokes.count st0
    ∧ (startDrawing p s).isDrawing = true := by
  have _ := h
  exact ⟨rfl, rfl, rfl, rfl, rfl, rfl⟩

/-- Witness for C10 at a concrete mid-stroke state. -/
theorem input_start_replaces_active_witness :
    stepEvent sampleDrawingState (Event.pointerDown { x := 5, y := 6 }) =
        startDrawing { x := 5, y := 6 } sampleDrawingState
    ∧ (startDrawing { x := 5, y := 6 } sampleDrawingState).currentStroke =
        some (capturedStroke sampleDrawingState { x := 5, y := 6 } [])
    ∧ (capturedStroke sampleDrawingState { x := 5, y := 6 } []).points =
        [{ x := 5, y := 6 }]
    ∧ (startDrawing { x := 5, y := 6 } sampleDrawingState).strokes =
        sampleDrawingState.strokes
    ∧ (startDrawing { x := 5, y := 6 } sampleDrawingState).strokes.count
          sampleActiveStroke =
        sampleDrawingState.strokes.count sampleActiveStroke
    ∧ (startDrawing { x := 5, y := 6 } sampleDrawingState).isDrawing = true :=
  input_start_replaces_active sampleDrawingState sampleActiveStroke
    { x := 5, y := 6 } rfl

/-- Claim C7: a stroke with fewer than two points contributes no draw
operation — the log path and the active path of the compositor both skip it
— while `stopDrawing` still stores such a completed stroke in the log. -/
theorem degenerate_stroke_not_rendered (st : Stroke) (h : st.points.length < 2) :
    (∀ (c : Ctx) (surf : Surface), drawLogStroke (c, surf) st = (c, surf))
    ∧ (∀ (c : Ctx) (surf : Surface), drawActiveStroke (c, surf) st = (c, surf))
    ∧ logOps [st] = []
    ∧ activeOps (some st) = []
    ∧ (∀ s : CanvasState, s.isDrawing = true → s.currentStroke = some st →
        (stopDrawing s).1.strokes = s.strokes ++ [st]) := by
  have h1 : ¬ (1 < st.points.length) := by omega
  refine ⟨?_, ?_, ?_, ?_, ?_⟩
  · intro c surf
    simp [drawLogStroke, h]
  · intro c surf
    simp [drawActiveStroke, h1]
  · simp [logOps, h]
  · simp [activeOps, h1]
  · intro s hd hc
    simp [stopDrawing, hc, hd]

/-- Witness for C7 at a concrete one-point stroke. -/
theorem degenerate_stroke_not_rendered_witness :
    (∀ (c : Ctx) (surf : Surface), drawLogStroke (c, surf) dotStroke = (c, surf))
    ∧ (∀ (c : Ctx) (surf : Surface), drawActiveStroke (c, surf) dotStroke = (c, surf))
    ∧ logOps [dotStroke] = []
    ∧ activeOps (some dotStroke) = []
    ∧ (∀ s : CanvasState, s.isDrawing = true → s.currentStroke = some dotStroke →
        (stopDrawing s).1.strokes = s.strokes ++ [dotStroke]) :=
  degenerate_stroke_not_rendered dotStroke (by decide)

/-- Claim C3: the per-tool modifiers of the compositor — pen 1x width, full
alpha, source-over; brush 1.5x width, 0.7 alpha, source-over; marker 2x
width, 0.5 alpha, source-over; eraser destination-out at full alpha and the
stored width — and the capture rule of `startDrawing`: the eraser's color is
forced to the background color and its width doubled, every other tool takes
color and width verbatim from the configuration. -/
theorem tool_modifiers_and_capture (c : Ctx) (surf : Surface) (st : Stroke)
    (s : CanvasState) (p : Point) (hc : ctxReady c) (hp : 2 ≤ st.points.length) :
    ((drawLogStroke (c, surf) st).2.ops = surf.ops ++ [canonicalOp st]
      ∧ (st.tool = .pen → (canonicalOp st).lineWidth = st.width
          ∧ (canonicalOp st).alpha = 1 ∧ (canonicalOp st).comp = .sourceOver)
      ∧ (st.tool = .brush → (canonicalOp st).lineWidth = st.width * (3/2)
          ∧ (canonicalOp st).alpha = 7/10 ∧ (canonicalOp st).comp = .sourceOver)
      ∧ (st.tool = .marker → (canonicalOp st).lineWidth = st.width * 2
          ∧ (canonicalOp st).alpha = 1/2 ∧ (canonicalOp st).comp = .sourceOver)
      ∧ (st.tool = .eraser → (canonicalOp st).comp = .destinationOut
          ∧ (canonicalOp st).alpha = 1 ∧ (canonicalOp st).lineWidth = st.width))
    ∧ ((startDrawing p s).currentStroke = some (capturedStroke s p [])
      ∧ (s.currentTool = .eraser → (capturedStroke s p []).color = backgroundColor
          ∧ (capturedStroke s p []).width = s.currentWidth * 2)
      ∧ (s.currentTool ≠ .eraser → (capturedStroke s p []).color = s.currentColor
          ∧ (capturedStroke s p []).width = s.currentWidth)) := by
  have hops := (drawLogStroke_ops c surf st hc).2.2
  rw [if_neg (by omega)] at hops
  refine ⟨⟨hops, ?_, ?_, ?_, ?_⟩, rfl, ?_, ?_⟩ <;>
    intro h <;> simp [canonicalOp, capturedStroke, h]

/-- Witness for C3: a concrete brush stroke through the log path, and a
concrete eraser capture. -/
theorem tool_modifiers_and_capture_witness :
    ((drawLogStroke (defaultCtx, blankSurface) sampleActiveStroke).2.ops =
        blankSurface.ops ++ [canonicalOp sampleActiveStroke]
      ∧ (sampleActiveStroke.tool = .pen →
          (canonicalOp sampleActiveStroke).lineWidth = sampleActiveStroke.width
          ∧ (canonicalOp sampleActiveStroke).alpha = 1
          ∧ (canonicalOp sampleActiveStroke).comp = .sourceOver)
      ∧ (sampleActiveStroke.tool = .brush →
          (canonicalOp sampleActiveStroke).lineWidth = sampleActiveStroke.width * (3/2)
          ∧ (canonicalOp sampleActiveStroke).alpha = 7/10
          ∧ (canonicalOp sampleActiveStroke).comp = .sourceOver)
      ∧ (sampleActiveStroke.tool = .marker →
          (canonicalOp sampleActiveStroke).lineWidth = sampleActiveStroke.width * 2
          ∧ (canonicalOp sampleActiveStroke).alpha = 1/2
          ∧ (canonicalOp sampleActiveStroke).comp = .sourceOver)
      ∧ (sampleActiveStroke.tool = .eraser →
          (canonicalOp sampleActiveStroke).comp = .destinationOut
          ∧ (canonicalOp sampleActiveStroke).alpha = 1
          ∧ (canonicalOp sampleActiveStroke).lineWidth = sampleActiveStroke.width))
    ∧ (((startDrawing { x := 7, y := 8 }
            { initialState with currentTool := Tool.eraser }).currentStroke =
          some (capturedStroke { initialState with currentTool := Tool.eraser }
            { x := 7, y := 8 } []))
      ∧ ({ initialState with currentTool := Tool.eraser }.currentTool = .eraser →
          (capturedStroke { initialState with currentTool := Tool.eraser }
              { x := 7, y := 8 } []).color = backgroundColor
          ∧ (capturedStroke { initialState with currentTool := Tool.eraser }
              { x := 7, y := 8 } []).width =
            { initialState with currentTool := Tool.eraser }.currentWidth * 2)
      ∧ ({ initialState with currentTool := Tool.eraser }.currentTool ≠ .eraser →
          (capturedStroke { initialState with currentTool := Tool.eraser }
              { x := 7, y := 8 } []).color =
            { initialState with currentTool := Tool.eraser }.currentColor
          ∧ (capturedStroke { initialState with currentTool := Tool.eraser }
              { x := 7, y := 8 } []).width =
            { initialState with currentTool := Tool.eraser }.currentWidth)) :=
  tool_modifiers_and_capture defaultCtx blankSurface sampleActiveStroke
    { initialState with currentTool := Tool.eraser } { x := 7, y := 8 }
    ⟨rfl, rfl⟩ (by decide)

/-- Claim C6: a render pass is a pure function of (stroke log, active
stroke): for any two context states satisfying the pass-entry invariant and
any two prior surface contents, identical inputs render identical surfaces
and identical encoded snapshots; and the surface consists of the background
fill with the log's operations in log order followed by the active stroke's
operation on top. -/
theorem render_pure_and_ordered (c1 c2 : Ctx) (s1 s2 : Surface)
    (log : List Stroke) (act : Option Stroke)
    (h1 : ctxReady c1) (h2 : ctxReady c2) :
    (redrawCanvas c1 s1 log act).surface = (redrawCanvas c2 s2 log act).surface
    ∧ (redrawCanvas c1 s1 log act).image = (redrawCanvas c2 s2 log act).image
    ∧ (redrawCanvas c1 s1 log act).surface =
        { background := backgroundColor, ops := logOps log ++ activeOps act } := by
  obtain ⟨e1, i1, _⟩ := redrawCanvas_eq c1 s1 log act h1
  obtain ⟨e2, i2, _⟩ := redrawCanvas_eq c2 s2 log act h2
  exact ⟨by rw [e1, e2], by rw [i1, i2], e1⟩

/-- A context left dirty by unrelated style changes but satisfying the
pass-entry invariant. -/
def dirtyCtx : Ctx :=
  { fillStyle := "#ABCDEF"
    strokeStyle := "#FF0000"
    lineWidth := 42
    globalAlpha := 1
    comp := .sourceOver
    lineCap := .round
    lineJoin := .round }

/-- A surface holding stale pixel content. -/
def dirtySurface : Surface :=
  { background := "#00FF00", ops := [canonicalOp samplePenStroke] }

/-- Witness for C6 at concrete differing contexts and priors. -/
theorem render_pure_and_ordered_witness :
    (redrawCanvas defaultCtx blankSurface [samplePenStroke]
        (some sampleActiveStroke)).surface =
      (redrawCanvas dirtyCtx dirtySurface [samplePenStroke]
        (some sampleActiveStroke)).surface
    ∧ (redrawCanvas defaultCtx blankSurface [samplePenStroke]
        (some sampleActiveStroke)).image =
      (redrawCanvas dirtyCtx dirtySurface [samplePenStroke]
        (some sampleActiveStroke)).image
    ∧ (redrawCanvas defaultCtx blankSurface [samplePenStroke]
        (some sampleActiveStroke)).surface =
      { background := backgroundColor
        ops := logOps [samplePenStroke] ++ activeOps (some sampleActiveStroke) } :=
  render_pure_and_ordered defaultCtx dirtyCtx blankSurface dirtySurface
    [samplePenStroke] (some sampleActiveStroke) ⟨rfl, rfl⟩ ⟨rfl, rfl⟩

/-- Repeated undo: as many undos as there are logged strokes empty the log
and leave the stored content-presence flag false. -/
lemma undoIter_empties (n : Nat) :
    ∀ s : CanvasState, s.strokes.length = n → 1 ≤ n →
      (undoIter n s).strokes = [] ∧ (undoIter n s).hasContent = false := by
  induction n with
  | zero =>
    intro s _ h1
    omega
  | succ m ih =>
    intro s h _
    have hpos : 0 < s.strokes.length := by omega
    have hstep : (undoLastStroke s).1 =
        { s with strokes := s.strokes.dropLast
                 hasContent := decide (1 < s.strokes.length) } := by
      simp [undoLastStroke, hpos]
    have hiter : undoIter (m + 1) s = undoIter m (undoLastStroke s).1 := rfl
    cases Nat.eq_zero_or_pos m with
    | inl hm0 =>
      subst hm0
      have hlen : s.strokes.length = 1 := by omega
      rw [hiter, hstep]
      constructor
      · show s.strokes.dropLast = []
        have : s.strokes.dropLast.length = 0 := by simp [hlen]
        exact List.eq_nil_of_length_eq_zero this
      · show decide (1 < s.strokes.length) = false
        simp [hlen]
    | inr hmpos =>
      have hlen : (undoLastStroke s).1.strokes.length = m := by
        rw [hstep]
        simp [h]
      rw [hiter]
      exact ih (undoLastStroke s).1 hlen hmpos

/-- Claim C4: on a log of `n ≥ 1` strokes one undo removes exactly the most
recent entry (the remaining log is the first `n - 1` entries, unchanged) and
emits content-presence `n - 1 > 0`; undo on an empty log is a no-op with no
emission; and `n` undos empty the log and leave content-presence false. -/
theorem undo_removes_most_recent (s : CanvasState) (n : Nat)
    (h : s.strokes.length = n) (hn : 1 ≤ n) :
    (undoLastStroke s).1.strokes = s.strokes.take (n - 1)
    ∧ (undoLastStroke s).1.strokes.length = n - 1
    ∧ (undoLastStroke s).2 = some (decide (0 < n - 1))
    ∧ (∀ t : CanvasState, t.strokes = [] → undoLastStroke t = (t, none))
    ∧ (undoIter n s).strokes = [] ∧ (undoIter n s).hasContent = false := by
  have hpos : 0 < s.strokes.length := by omega
  have hn0 : 0 < n := hn
  obtain ⟨he, hc⟩ := undoIter_empties n s h hn
  have hdec : decide (1 < s.strokes.length) = decide (0 < n - 1) := by
    rw [decide_eq_decide]
    omega
  refine ⟨?_, ?_, ?_, ?_, he, hc⟩
  · simp [undoLastStroke, hpos, hn0, List.dropLast_eq_take, h]
  · simp [undoLastStroke, hpos, hn0, h]
  · simp [undoLastStroke, hpos, hdec]
  · intro t ht
    simp [undoLastStroke, ht]

/-- A state holding two completed strokes. -/
def twoStrokeState : CanvasState :=
  { initialState with strokes := [samplePenStroke, sampleActiveStroke]
                      hasContent := true }

/-- Witness for C4 on a two-stroke log. -/
theorem undo_removes_most_recent_witness :
    (undoLastStroke twoStrokeState).1.strokes = twoStrokeState.strokes.take 1
    ∧ (undoLastStroke twoStrokeState).1.strokes.length = 1
    ∧ (undoLastStroke twoStrokeState).2 = some (decide (0 < 1))
    ∧ (∀ t : CanvasState, t.strokes = [] → undoLastStroke t = (t, none))
    ∧ (undoIter 2 twoStrokeState).strokes = []
    ∧ (undoIter 2 twoStrokeState).hasContent = false :=
  undo_removes_most_recent twoStrokeState 2 rfl (by omega)

/-- Claim C9: drawing stroke A, drawing stroke B, then undoing once exports
the same image as drawing only stroke A — from any starting state. -/
theorem undo_cancels_last_stroke (s0 : CanvasState) (p0 : Point) (ps : List Point)
    (q0 : Point) (qs : List Point) :
    exportImage (runEvents s0
        (strokeEvents p0 ps ++ strokeEvents q0 qs ++ [Event.undoCmd]))
      = exportImage (runEvents s0 (strokeEvents p0 ps)) := by
  have hsplit : runEvents s0 (strokeEvents p0 ps ++ strokeEvents q0 qs ++ [Event.undoCmd])
      = stepEvent (runEvents (runEvents s0 (strokeEvents p0 ps)) (strokeEvents q0 qs))
          Event.undoCmd := by
    simp [runEvents, List.foldl_append]
  have hA := runEvents_strokeEvents s0 p0 ps
  have hB := runEvents_strokeEvents (runEvents s0 (strokeEvents p0 ps)) q0 qs
  have hAcur : (runEvents s0 (strokeEvents p0 ps)).currentStroke = none := by
    rw [hA]
  have hundo : stepEvent (runEvents (runEvents s0 (strokeEvents p0 ps))
      (strokeEvents q0 qs)) Event.undoCmd =
      { runEvents (runEvents s0 (strokeEvents p0 ps)) (strokeEvents q0 qs) with
          strokes := (runEvents s0 (strokeEvents p0 ps)).strokes
          hasContent := decide (1 <
            ((runEvents s0 (strokeEvents p0 ps)).strokes ++
              [capturedStroke (runEvents s0 (strokeEvents p0 ps)) q0 qs]).length) } := by
    rw [hB]
    simp [stepEvent, undoLastStroke]
  rw [hsplit, hundo]
  simp only [exportImage]
  rw [hB]
  rw [hAcur]

/-- A single-point (tap) stroke started on a blank session. -/
def tapStroke : Stroke :=
  { points := [{ x := 10, y := 10 }]
    color := "#000000"
    width := 5
    tool := .pen }

/-- A blank session mid-way through its very first (single-point) stroke. -/
def tapState : CanvasState :=
  { initialState with isDrawing := true, currentStroke := some tapStroke }

/-- Claim C1 (evaluation of the source at the failing input): completing the
first stroke when it holds a single point leaves the log non-empty, yet the
stale read of the old log length makes the component deliver content-presence
`false` — where the intended policy (log non-empty after the transition, or
an active stroke of more than one point) demands `true`. -/
theorem content_presence_stale_read :
    (stopDrawing tapState).2 = some false
    ∧ (stopDrawing tapState).1.strokes = [tapStroke]
    ∧ (stopDrawing tapState).1.strokes ≠ []
    ∧ (stopDrawing tapState).1.currentStroke = none := by
  refine ⟨rfl, rfl, ?_, rfl⟩
  decide

/-- Claim C2 (counterexample): a touch event with no active touch points is
not silently ignored.  With the canvas mounted, the touch mapper's read of
the absent first touch fails (and so does `handleTouchStart`); with the
canvas unmounted, `handleTouchStart` records the origin as a new one-point
stroke, changing the session state. -/
theorem touch_empty_claim_false :
    getTouchPos (some sampleCanvasEl) [] = .error touchUndefinedError
    ∧ handleTouchStart (some sampleCanvasEl) [] initialState = .error touchUndefinedError
    ∧ handleTouchStart none [] initialState =
        .ok (startDrawing { x := 0, y := 0 } initialState)
    ∧ startDrawing { x := 0, y := 0 } initialState ≠ initialState := by
  refine ⟨rfl, rfl, rfl, ?_⟩
  decide

/-- Claim C2 (amended): how the component actually treats a touch event with
no active touch points — with the canvas mounted, the touch coordinate
mapper fails with an undefined access and the start/move handlers propagate
that failure; with the canvas unmounted, the mapper yields the origin, so a
touch-start begins a one-point stroke at the origin and a touch-move appends
the origin to any active stroke. -/
theorem touch_empty_behavior (el : CanvasEl) (s : CanvasState) :
    getTouchPos (some el) [] = .error touchUndefinedError
    ∧ handleTouchStart (some el) [] s = .error touchUndefinedError
    ∧ handleTouchMove (some el) [] s = .error touchUndefinedError
    ∧ getTouchPos none [] = .ok { x := 0, y := 0 }
    ∧ handleTouchStart none [] s = .ok (startDrawing { x := 0, y := 0 } s)
    ∧ handleTouchMove none [] s = .ok (draw { x := 0, y := 0 } s) :=
  ⟨rfl, rfl, rfl, rfl, rfl, rfl⟩
